import Mathlib

/-!
Verification of the WhisperKit Python client
(`Examples/ServeCLIClient/Python/whisperkit_client.py`).

The development shallowly embeds the pieces of the client that the
specification talks about:

* `clean_whisperkit_text` (source lines 230-239): two passes of
  `re.sub` with the pattern `<\|[^>]+\|>` followed by whitespace
  collapsing (`re.sub` with `\s+` replaced by a single space) and
  `str.strip`.  The regex pass is embedded as an exact left-to-right
  scanner: at a position starting with the two characters `<` `|`, the
  Python regex matches precisely when the first `>` after those two
  characters is at offset `m ≥ 2` and is immediately preceded by `|`;
  the match then spans up to and including that `>`.  On a failed
  match the scan advances one character, as `re.sub` does.  The
  whitespace class is modelled as the ASCII part of Python `\s`.
* the streaming event consumer `_transcribe_streaming`
  (source lines 87-139): a left fold of `processEvent` over the list
  of `data: ` payloads, each payload either parsed as a JSON object
  (`StreamEvent.json` with its `type`, `delta` and `text` fields) or
  failing to parse (`StreamEvent.raw`).  The fold is total, so no
  payload aborts the stream.
* the HTTP status gates of `_transcribe_streaming` (line 83),
  `_transcribe_non_streaming` (line 172) and `translate` (line 262):
  each returns `none` and emits a diagnostic carrying the status code
  and response body whenever the status differs from 200.  All three
  functions are total: no exception reaches the caller.
* the multipart form-data builders of `_transcribe_non_streaming`
  (lines 150-164) and `translate` (lines 246-254): Python `dict`
  insertion with key overwrite is modelled by `setField`.
-/

namespace WhisperKit

/-- ASCII part of the Python regex class `\s`: space, tab, newline,
carriage return, vertical tab and form feed. -/
def isWs (c : Char) : Bool :=
  c = ' ' || c = '\t' || c = '\n' || c = '\r' || c = '\x0b' || c = '\x0c'

/-- Split a character list at its first `>`: returns the characters
before the first `>` and the characters after it, or `none` when no
`>` occurs. -/
def firstGtSplit : List Char → Option (List Char × List Char)
  | [] => none
  | c :: cs =>
    if c = '>' then some ([], cs)
    else (firstGtSplit cs).map (fun p => (c :: p.1, p.2))

/-- Fuelled scanner for one pass of `re.sub` with pattern
`<\|[^>]+\|>` and empty replacement (source lines 234 and 236).  At a
position starting with `<` `|` the regex matches exactly when the
first `>` afterwards is preceded by `|` and at least one other
character stands between; the matched span is removed and scanning
resumes after the `>`.  Otherwise the head character is emitted and
the scan advances by one.  The fuel argument only forces structural
recursion; `subMarkers` supplies enough fuel for the scan to finish. -/
def subMarkersGo : Nat → List Char → List Char
  | 0, cs => cs
  | _ + 1, [] => []
  | fuel + 1, c :: cs =>
    if c = '<' ∧ cs.head? = some '|' then
      match firstGtSplit cs.tail with
      | some (pre, post) =>
        if 2 ≤ pre.length ∧ pre.getLast? = some '|' then subMarkersGo fuel post
        else c :: subMarkersGo fuel cs
      | none => c :: subMarkersGo fuel cs
    else c :: subMarkersGo fuel cs

/-- One pass of `re.sub` removing `<\|[^>]+\|>` markers. -/
def subMarkers (cs : List Char) : List Char :=
  subMarkersGo cs.length cs

/-- One pass of `re.sub` replacing every maximal run of whitespace by
a single space (source line 238).  The boolean records whether the
previous character belonged to a whitespace run. -/
def collapseWsAux : Bool → List Char → List Char
  | _, [] => []
  | inRun, c :: cs =>
    if isWs c then
      if inRun then collapseWsAux true cs
      else ' ' :: collapseWsAux true cs
    else c :: collapseWsAux false cs

/-- Replace each maximal whitespace run with one space. -/
def collapseWs (cs : List Char) : List Char :=
  collapseWsAux false cs

/-- Remove trailing whitespace characters. -/
def dropTrailingWs (cs : List Char) : List Char :=
  ((cs.reverse).dropWhile isWs).reverse

/-- Python `str.strip`: remove leading and trailing whitespace. -/
def stripWs (cs : List Char) : List Char :=
  dropTrailingWs (cs.dropWhile isWs)

/-- The whole `_clean_whisperkit_text` pipeline on character lists
(source lines 230-239): two marker-removal passes, whitespace
collapsing, then strip. -/
def cleanList (cs : List Char) : List Char :=
  stripWs (collapseWs (subMarkers (subMarkers cs)))

/-- `_clean_whisperkit_text` on strings. -/
def clean_whisperkit_text (s : String) : String :=
  String.mk (cleanList s.data)

/-- Python `str.strip` on strings, as used on raw stream payloads
(source lines 130-131). -/
def pyStrip (s : String) : String :=
  String.mk (stripWs s.data)

/-- Does the character list contain the two-character substring `|>`
somewhere? -/
def hasCloser : List Char → Bool
  | [] => false
  | [_] => false
  | c1 :: c2 :: rest => (c1 == '|' && c2 == '>') || hasCloser (c2 :: rest)

/-- The bracketed-marker pattern of the specification: the list
contains an occurrence of `<|`, followed (disjointly, after the
opening two characters) by an occurrence of `|>`; equivalently the
list decomposes as `u ++ <| ++ v ++ |> ++ w`. -/
def containsMarkerB : List Char → Bool
  | [] => false
  | c :: cs =>
    (if c = '<' ∧ cs.head? = some '|' then hasCloser cs.tail else false)
      || containsMarkerB cs

/-- Inputs made of plain characters (never `<`) interleaved with
complete bracketed markers `<|body|>` whose body is nonempty and
contains no `>`.  This is the class of inputs on which the cleaner is
proved to remove every marker. -/
inductive PlainMarkers : List Char → Prop
  | nil : PlainMarkers []
  | plain {c : Char} {cs : List Char} :
      c ≠ '<' → PlainMarkers cs → PlainMarkers (c :: cs)
  | marker {body cs : List Char} :
      body ≠ [] → (∀ c ∈ body, c ≠ '>') → PlainMarkers cs →
      PlainMarkers ('<' :: '|' :: (body ++ '|' :: '>' :: cs))

/-- One `data: ` payload of the server-sent-event stream, after the
classification performed by `_transcribe_streaming` (source lines
96-132): either a JSON object, of which only the `type`, `delta` and
`text` fields are ever read, or a payload that failed to parse as
JSON. -/
inductive StreamEvent where
  | json (typeTag : Option String) (delta : Option String) (text : Option String)
  | raw (payload : String)
deriving DecidableEq

/-- A delta payload, as in the stream scenarios of the specification. -/
def mkDelta (d : String) : StreamEvent :=
  StreamEvent.json (some "transcript.text.delta") (some d) none

/-- A done payload carrying a final text. -/
def mkDone (t : String) : StreamEvent :=
  StreamEvent.json (some "transcript.text.done") none (some t)

/-- Has the event one of the two recognised type tags? -/
def isDeltaOrDone : StreamEvent → Bool
  | StreamEvent.json t _ _ =>
      t == some "transcript.text.delta" || t == some "transcript.text.done"
  | StreamEvent.raw _ => false

/-- One step of the event loop of `_transcribe_streaming` (source
lines 96-132), updating the accumulated `final_text`:

* delta payload: when the `delta` field is present and nonempty
  (Python truthiness), append its cleaned form (lines 100-106);
* done payload: replace the accumulated text by the `text` field when
  present, keep it otherwise (`event_data.get` with default, line 109);
* any other JSON payload: printed only, text unchanged (line 126);
* unparsable payload: when the stripped payload is nonempty it
  replaces the accumulated text, otherwise nothing changes (lines
  130-131). -/
def processEvent (final_text : String) : StreamEvent → String
  | StreamEvent.json typeTag delta text =>
    if typeTag = some "transcript.text.delta" then
      match delta with
      | some d => if d = "" then final_text else final_text ++ clean_whisperkit_text d
      | none => final_text
    else if typeTag = some "transcript.text.done" then
      match text with
      | some t => t
      | none => final_text
    else final_text
  | StreamEvent.raw payload =>
    if pyStrip payload = "" then final_text else pyStrip payload

/-- The accumulated text after the whole stream has been consumed: the
loop of lines 90-132 runs to stream exhaustion, so it is a left fold
starting from the empty string. -/
def consumeStream (events : List StreamEvent) : String :=
  events.foldl processEvent ""

/-- Outcome of the streaming path after the stream is exhausted
(source lines 134-139): an empty accumulated text triggers the
fallback to the non-streaming path, otherwise the text is returned. -/
inductive StreamOutcome where
  | text (t : String)
  | fallback
deriving DecidableEq

/-- Result of `_transcribe_streaming` after consuming the stream. -/
def transcribeStreamingResult (events : List StreamEvent) : StreamOutcome :=
  if consumeStream events = "" then StreamOutcome.fallback
  else StreamOutcome.text (consumeStream events)

/-- Number of non-streaming HTTP requests issued by the streaming path
after the stream is exhausted: the fallback branch (line 137) makes a
single call to `_transcribe_non_streaming`, which performs exactly one
POST (line 166) and never calls back into the streaming path; the
non-fallback branch issues none. -/
def fallbackRequestCount (events : List StreamEvent) : Nat :=
  if consumeStream events = "" then 1 else 0

/-- An HTTP response as observed by the client: status code, raw body,
and the `text` field of the parsed JSON body (with the `.get` default
of the empty string). -/
structure HttpResponse where
  status : Nat
  body : String
  text : String
deriving DecidableEq

/-- Result of `_transcribe_non_streaming` as a function of the HTTP
response (source lines 172-174 and 187, 224): `none` on any status
other than 200, otherwise the `text` field.  The function is total:
no exception reaches the caller. -/
def transcribeNonStreaming (resp : HttpResponse) : Option String :=
  if resp.status ≠ 200 then none else some resp.text

/-- Diagnostic emitted by `_transcribe_non_streaming` on a non-200
status (source line 173), carrying the status code and response body. -/
def transcriptionFailureMsg (resp : HttpResponse) : Option String :=
  if resp.status ≠ 200 then
    some ("Transcription failed: " ++ toString resp.status ++ " " ++ resp.body)
  else none

/-- Result of `translate` as a function of the HTTP response (source
lines 262-264 and 269, 297). -/
def translateCall (resp : HttpResponse) : Option String :=
  if resp.status ≠ 200 then none else some resp.text

/-- Diagnostic emitted by `translate` on a non-200 status (source line
263). -/
def translationFailureMsg (resp : HttpResponse) : Option String :=
  if resp.status ≠ 200 then
    some ("Translation failed: " ++ toString resp.status ++ " " ++ resp.body)
  else none

/-- The whole streaming path: the status gate of line 83 returns
`none` before any event is consumed; with status 200 the stream is
consumed and the fallback branch returns whatever the non-streaming
request returns (`fallbackResult`). -/
def transcribeStreamingTop (status : Nat) (events : List StreamEvent)
    (fallbackResult : Option String) : Option String :=
  if status ≠ 200 then none
  else
    match transcribeStreamingResult events with
    | StreamOutcome.text t => some t
    | StreamOutcome.fallback => fallbackResult

/-- Diagnostic emitted by the streaming path on a non-200 status
(source line 84). -/
def streamingFailureMsg (resp : HttpResponse) : Option String :=
  if resp.status ≠ 200 then
    some ("Streaming failed: " ++ toString resp.status ++ " " ++ resp.body)
  else none

/-- Python `dict` assignment `d[key] = val` on an insertion-ordered
association list: overwrite the value in place when the key exists,
append otherwise. -/
def setField (fields : List (String × String)) (key val : String) :
    List (String × String) :=
  if fields.any (fun f => f.fst == key) then
    fields.map (fun f => if f.fst == key then (key, val) else f)
  else fields ++ [(key, val)]

/-- Python `",".join`. -/
def joinComma (xs : List String) : String :=
  String.intercalate "," xs

/-- The form-data dictionary built by `_transcribe_non_streaming`
(source lines 151-164): base fields, then optional `language`,
optional comma-joined `timestamp_granularities[]`, and a loop that
assigns each inclusion flag to the single dictionary key `include[]`.
Python list truthiness maps `None` and the empty list both to `[]`. -/
def transcriptionFormData (model language response_format : String)
    (timestamp_granularities includeFlags : List String) :
    List (String × String) :=
  let d := [("model", model), ("response_format", response_format)]
  let d := if language = "" then d else setField d "language" language
  let d := if timestamp_granularities = [] then d
    else setField d "timestamp_granularities[]" (joinComma timestamp_granularities)
  if includeFlags = [] then d
  else includeFlags.foldl (fun acc item => setField acc "include[]" item) d

/-- The form-data dictionary built by `translate` (source lines
247-254): only `model` and `response_format`; the
`timestamp_granularities` parameter is accepted but never used (the
assignment is commented out in the source). -/
def translationFormData (model response_format : String)
    (_timestamp_granularities : List String) : List (String × String) :=
  [("model", model), ("response_format", response_format)]

/-- No two adjacent whitespace characters. -/
def NoAdjWs (cs : List Char) : Prop :=
  List.Chain' (fun a b => isWs a = false ∨ isWs b = false) cs

/-- Every whitespace character of the list is a plain space. -/
def WsOnlySpace (cs : List Char) : Prop :=
  ∀ c ∈ cs, isWs c = true → c = ' '

/-- The first character, when there is one, is not whitespace. -/
def HeadNotWs (cs : List Char) : Prop :=
  ∀ c ∈ cs.head?, isWs c = false

/-- The last character, when there is one, is not whitespace. -/
def LastNotWs (cs : List Char) : Prop :=
  ∀ c ∈ cs.getLast?, isWs c = false

/-! ### Lemmas about the marker-removal scanner -/

theorem firstGtSplit_length :
    ∀ {cs pre post : List Char}, firstGtSplit cs = some (pre, post) →
      post.length < cs.length := by
  intro cs
  induction cs with
  | nil => intro pre post h; simp [firstGtSplit] at h
  | cons c cs ih =>
    intro pre post h
    by_cases hc : c = '>'
    · simp only [firstGtSplit, if_pos hc, Option.some.injEq, Prod.mk.injEq] at h
      obtain ⟨-, h2⟩ := h
      subst h2
      simp
    · simp only [firstGtSplit, if_neg hc] at h
      cases hm : firstGtSplit cs with
      | none => rw [hm] at h; simp at h
      | some p =>
        rw [hm] at h
        simp only [Option.map_some', Option.some.injEq, Prod.mk.injEq] at h
        obtain ⟨-, h2⟩ := h
        subst h2
        have := ih (show firstGtSplit cs = some (p.1, p.2) from by rw [hm])
        simp only [List.length_cons]
        omega

theorem firstGtSplit_append :
    ∀ (pre : List Char), (∀ c ∈ pre, c ≠ '>') → ∀ (rest : List Char),
      firstGtSplit (pre ++ '>' :: rest) = some (pre, rest) := by
  intro pre
  induction pre with
  | nil => intro _ rest; simp [firstGtSplit]
  | cons c p ih =>
    intro h rest
    have hc : c ≠ '>' := h c (List.mem_cons_self c p)
    simp only [List.cons_append, firstGtSplit, if_neg hc, List.append_eq]
    rw [ih (fun d hd => h d (List.mem_cons_of_mem c hd)) rest]
    rfl

theorem subMarkersGo_congr :
    ∀ (f1 : Nat) (cs : List Char) (f2 : Nat), cs.length ≤ f1 → cs.length ≤ f2 →
      subMarkersGo f1 cs = subMarkersGo f2 cs := by
  intro f1
  induction f1 with
  | zero =>
    intro cs f2 h1 _
    have : cs = [] := List.length_eq_zero.mp (Nat.le_zero.mp h1)
    subst this
    cases f2 <;> rfl
  | succ f ih =>
    intro cs f2 h1 h2
    cases cs with
    | nil => cases f2 <;> rfl
    | cons c cs =>
      cases f2 with
      | zero => simp at h2
      | succ g =>
        have hlen : cs.length ≤ f := by simpa using h1
        have hlen2 : cs.length ≤ g := by simpa using h2
        simp only [subMarkersGo]
        by_cases hcond : c = '<' ∧ cs.head? = some '|'
        · simp only [if_pos hcond]
          cases hm : firstGtSplit cs.tail with
          | none => rw [ih cs g hlen hlen2]
          | some p =>
            obtain ⟨pre, post⟩ := p
            have hpost : post.length < cs.tail.length := firstGtSplit_length hm
            have hpost' : post.length ≤ cs.length := by
              have := List.length_tail cs
              omega
            by_cases hok : 2 ≤ pre.length ∧ pre.getLast? = some '|'
            · simp only [if_pos hok]
              exact ih post g (le_trans hpost' hlen) (le_trans hpost' hlen2)
            · simp only [if_neg hok]
              rw [ih cs g hlen hlen2]
        · simp only [if_neg hcond]
          rw [ih cs g hlen hlen2]

theorem subMarkers_nil : subMarkers [] = [] := rfl

theorem subMarkers_cons_ne {c : Char} (h : c ≠ '<') (cs : List Char) :
    subMarkers (c :: cs) = c :: subMarkers cs := by
  show subMarkersGo (cs.length + 1) (c :: cs) = c :: subMarkers cs
  have hcond : ¬(c = '<' ∧ cs.head? = some '|') := fun hc => h hc.1
  simp only [subMarkersGo, if_neg hcond]
  rfl

theorem subMarkers_marker {body cs : List Char} (hb : body ≠ [])
    (hgt : ∀ c ∈ body, c ≠ '>') :
    subMarkers ('<' :: '|' :: (body ++ '|' :: '>' :: cs)) = subMarkers cs := by
  have hsplit : firstGtSplit (body ++ '|' :: '>' :: cs) = some (body ++ ['|'], cs) := by
    have : body ++ '|' :: '>' :: cs = (body ++ ['|']) ++ '>' :: cs := by
      simp [List.append_assoc]
    rw [this]
    refine firstGtSplit_append (body ++ ['|']) ?_ cs
    intro d hd
    rcases List.mem_append.mp hd with hd1 | hd2
    · exact hgt d hd1
    · simp only [List.mem_singleton] at hd2
      subst hd2
      decide
  have hcond : ('<' : Char) = '<' ∧ ('|' :: (body ++ '|' :: '>' :: cs)).head? = some '|' := by
    constructor <;> rfl
  have hok : 2 ≤ (body ++ ['|']).length ∧ (body ++ ['|']).getLast? = some '|' := by
    constructor
    · have : 1 ≤ body.length := by
        cases body with
        | nil => exact absurd rfl hb
        | cons _ _ => simp
      simp only [List.length_append, List.length_singleton]
      omega
    · exact List.getLast?_concat body
  show subMarkersGo (('<' :: '|' :: (body ++ '|' :: '>' :: cs)).length)
      ('<' :: '|' :: (body ++ '|' :: '>' :: cs)) = subMarkers cs
  simp only [List.length_cons, subMarkersGo, if_pos hcond, List.tail_cons, hsplit,
    if_pos hok]
  refine subMarkersGo_congr _ cs cs.length ?_ le_rfl
  simp [List.length_append]
  omega

theorem subMarkers_id_of_no_lt :
    ∀ {cs : List Char}, (∀ c ∈ cs, c ≠ '<') → subMarkers cs = cs := by
  intro cs
  induction cs with
  | nil => intro _; rfl
  | cons c cs ih =>
    intro h
    rw [subMarkers_cons_ne (h c (List.mem_cons_self c cs)) cs,
      ih (fun d hd => h d (List.mem_cons_of_mem c hd))]

theorem plainMarkers_of_no_lt :
    ∀ {cs : List Char}, (∀ c ∈ cs, c ≠ '<') → PlainMarkers cs := by
  intro cs
  induction cs with
  | nil => intro _; exact PlainMarkers.nil
  | cons c cs ih =>
    intro h
    exact PlainMarkers.plain (h c (List.mem_cons_self c cs))
      (ih (fun d hd => h d (List.mem_cons_of_mem c hd)))

theorem subMarkers_no_lt_of_plainMarkers {s : List Char} (h : PlainMarkers s) :
    ∀ c ∈ subMarkers s, c ≠ '<' := by
  induction h with
  | nil => intro c hc; simp [subMarkers_nil] at hc
  | plain hc _ ih =>
    rename_i a as
    intro c hmem
    rw [subMarkers_cons_ne hc] at hmem
    rcases List.mem_cons.mp hmem with rfl | hm
    · exact hc
    · exact ih c hm
  | marker hb hgt _ ih =>
    intro c hmem
    rw [subMarkers_marker hb hgt] at hmem
    exact ih c hmem

theorem mem_lt_of_containsMarkerB :
    ∀ {cs : List Char}, containsMarkerB cs = true → '<' ∈ cs := by
  intro cs
  induction cs with
  | nil => intro h; simp [containsMarkerB] at h
  | cons c cs ih =>
    intro h
    simp only [containsMarkerB, Bool.or_eq_true] at h
    rcases h with h | h
    · by_cases hcond : c = '<' ∧ cs.head? = some '|'
      · exact hcond.1 ▸ List.mem_cons_self c cs
      · rw [if_neg hcond] at h
        exact absurd h (by simp)
    · exact List.mem_cons_of_mem c (ih h)

/-! ### Lemmas about whitespace collapsing and stripping -/

theorem mem_collapseWsAux :
    ∀ (cs : List Char) (b : Bool) (c : Char), c ∈ collapseWsAux b cs →
      c = ' ' ∨ c ∈ cs := by
  intro cs
  induction cs with
  | nil => intro b c hc; simp [collapseWsAux] at hc
  | cons d cs ih =>
    intro b c hc
    by_cases hd : isWs d = true
    · cases b with
      | false =>
        simp only [collapseWsAux, hd, if_true, Bool.false_eq_true, if_false] at hc
        rcases List.mem_cons.mp hc with rfl | hm
        · exact Or.inl rfl
        · rcases ih true c hm with h | h
          · exact Or.inl h
          · exact Or.inr (List.mem_cons_of_mem d h)
      | true =>
        simp only [collapseWsAux, hd, if_true] at hc
        rcases ih true c hc with h | h
        · exact Or.inl h
        · exact Or.inr (List.mem_cons_of_mem d h)
    · simp only [collapseWsAux, hd, Bool.false_eq_true, if_false] at hc
      rcases List.mem_cons.mp hc with rfl | hm
      · exact Or.inr (List.mem_cons_self c cs)
      · rcases ih false c hm with h | h
        · exact Or.inl h
        · exact Or.inr (List.mem_cons_of_mem d h)

theorem collapseWsAux_wsOnlySpace :
    ∀ (cs : List Char) (b : Bool), WsOnlySpace (collapseWsAux b cs) := by
  intro cs
  induction cs with
  | nil => intro b c hc; simp [collapseWsAux] at hc
  | cons d cs ih =>
    intro b c hc hw
    by_cases hd : isWs d = true
    · cases b with
      | false =>
        simp only [collapseWsAux, hd, if_true, Bool.false_eq_true, if_false] at hc
        rcases List.mem_cons.mp hc with rfl | hm
        · rfl
        · exact ih true c hm hw
      | true =>
        simp only [collapseWsAux, hd, if_true] at hc
        exact ih true c hc hw
    · simp only [collapseWsAux, hd, Bool.false_eq_true, if_false] at hc
      rcases List.mem_cons.mp hc with rfl | hm
      · exact absurd hw (by simp [hd])
      · exact ih false c hm hw

theorem collapseWsAux_true_headNotWs :
    ∀ (cs : List Char), HeadNotWs (collapseWsAux true cs) := by
  intro cs
  induction cs with
  | nil => intro c hc; simp [collapseWsAux] at hc
  | cons d cs ih =>
    intro c hc
    by_cases hd : isWs d = true
    · simp only [collapseWsAux, hd, if_true] at hc
      exact ih c hc
    · simp only [collapseWsAux, hd, Bool.false_eq_true, if_false,
        List.head?_cons, Option.mem_def, Option.some.injEq] at hc
      subst hc
      simpa using hd

theorem collapseWsAux_noAdj :
    ∀ (cs : List Char) (b : Bool), NoAdjWs (collapseWsAux b cs) := by
  intro cs
  induction cs with
  | nil => intro b; simp [collapseWsAux, NoAdjWs]
  | cons d cs ih =>
    intro b
    by_cases hd : isWs d = true
    · cases b with
      | false =>
        simp only [collapseWsAux, hd, if_true, Bool.false_eq_true, if_false]
        refine List.chain'_cons'.mpr ⟨?_, ih true⟩
        intro y hy
        exact Or.inr (collapseWsAux_true_headNotWs cs y hy)
      | true =>
        simp only [collapseWsAux, hd, if_true]
        exact ih true
    · simp only [collapseWsAux, hd, Bool.false_eq_true, if_false]
      refine List.chain'_cons'.mpr ⟨?_, ih false⟩
      intro y _
      exact Or.inl (by simpa using hd)

theorem head?_dropWhile_isWs :
    ∀ (cs : List Char), HeadNotWs (cs.dropWhile isWs) := by
  intro cs
  induction cs with
  | nil => intro c hc; simp [List.dropWhile] at hc
  | cons d cs ih =>
    intro c hc
    by_cases hd : isWs d = true
    · rw [List.dropWhile_cons_of_pos hd] at hc
      exact ih c hc
    · rw [List.dropWhile_cons_of_neg hd] at hc
      simp only [List.head?_cons, Option.mem_def, Option.some.injEq] at hc
      subst hc
      simpa using hd

theorem dropWhile_id_of_headNotWs {cs : List Char} (h : HeadNotWs cs) :
    cs.dropWhile isWs = cs := by
  cases cs with
  | nil => rfl
  | cons d cs =>
    have hd : isWs d = false := h d rfl
    rw [List.dropWhile_cons_of_neg (by simp [hd])]

theorem mem_dropWhile {c : Char} {cs : List Char} {p : Char → Bool}
    (h : c ∈ cs.dropWhile p) : c ∈ cs :=
  (List.dropWhile_suffix p).subset h

theorem mem_stripWs {c : Char} {cs : List Char} (h : c ∈ stripWs cs) : c ∈ cs := by
  unfold stripWs dropTrailingWs at h
  rw [List.mem_reverse] at h
  exact mem_dropWhile (List.mem_reverse.mp (mem_dropWhile h))

theorem head?_append_of_head? {l t : List Char} {c : Char}
    (h : l.head? = some c) : (l ++ t).head? = some c := by
  cases l with
  | nil => simp at h
  | cons a l => simpa using h

theorem dropTrailingWs_head? {y : List Char} {c : Char}
    (h : (dropTrailingWs y).head? = some c) : y.head? = some c := by
  obtain ⟨u, hu⟩ :=
    (List.dropWhile_suffix isWs : List.dropWhile isWs y.reverse <:+ y.reverse)
  have hy : y = (y.reverse.dropWhile isWs).reverse ++ u.reverse := by
    conv_lhs => rw [← List.reverse_reverse y, ← hu]
    rw [List.reverse_append]
  rw [hy]
  exact head?_append_of_head? h

theorem stripWs_headNotWs (cs : List Char) : HeadNotWs (stripWs cs) := by
  intro c hc
  have h2 : ((cs.dropWhile isWs).head? = some c) := dropTrailingWs_head? hc
  exact head?_dropWhile_isWs cs c h2

theorem stripWs_lastNotWs (cs : List Char) : LastNotWs (stripWs cs) := by
  intro c hc
  unfold stripWs dropTrailingWs at hc
  rw [Option.mem_def, ← List.head?_reverse, List.reverse_reverse] at hc
  exact head?_dropWhile_isWs _ c hc

theorem noAdjWs_reverse {l : List Char} (h : NoAdjWs l) : NoAdjWs l.reverse := by
  rw [NoAdjWs, List.chain'_reverse]
  exact h.imp (fun a b hab => hab.symm)

theorem noAdjWs_dropWhile {l : List Char} (p : Char → Bool) (h : NoAdjWs l) :
    NoAdjWs (l.dropWhile p) :=
  h.suffix (List.dropWhile_suffix p)

theorem stripWs_noAdj {cs : List Char} (h : NoAdjWs cs) : NoAdjWs (stripWs cs) := by
  unfold stripWs dropTrailingWs
  exact noAdjWs_reverse (noAdjWs_dropWhile isWs (noAdjWs_reverse (noAdjWs_dropWhile isWs h)))

theorem collapseWsAux_id :
    ∀ (cs : List Char), NoAdjWs cs → WsOnlySpace cs → ∀ (b : Bool),
      (b = true → HeadNotWs cs) → collapseWsAux b cs = cs := by
  intro cs
  induction cs with
  | nil => intros; rfl
  | cons d cs ih =>
    intro hadj hws b hb
    have hadj' : NoAdjWs cs := (List.chain'_cons'.mp hadj).2
    have hws' : WsOnlySpace cs := fun c hc hw => hws c (List.mem_cons_of_mem d hc) hw
    by_cases hd : isWs d = true
    · have hd' : d = ' ' := hws d (List.mem_cons_self d cs) hd
      have hb' : b = false := by
        cases b with
        | false => rfl
        | true => exact absurd (hb rfl d rfl) (by simp [hd])
      subst hb'
      have hhead : HeadNotWs cs := by
        intro y hy
        rcases (List.chain'_cons'.mp hadj).1 y hy with h | h
        · exact absurd hd (by simp [h])
        · exact h
      simp only [collapseWsAux, hd, if_true, Bool.false_eq_true, if_false]
      rw [ih hadj' hws' true (fun _ => hhead), hd']
    · simp only [collapseWsAux, hd, Bool.false_eq_true, if_false]
      rw [ih hadj' hws' false (fun h => absurd h (by decide))]

theorem dropTrailingWs_id {cs : List Char} (h : LastNotWs cs) :
    dropTrailingWs cs = cs := by
  unfold dropTrailingWs
  have hrev : HeadNotWs cs.reverse := by
    intro c hc
    rw [Option.mem_def, List.head?_reverse] at hc
    exact h c hc
  rw [dropWhile_id_of_headNotWs hrev, List.reverse_reverse]

theorem stripWs_id {cs : List Char} (h1 : HeadNotWs cs) (h2 : LastNotWs cs) :
    stripWs cs = cs := by
  unfold stripWs
  rw [dropWhile_id_of_headNotWs h1, dropTrailingWs_id h2]

theorem stripCollapse_idem (cs : List Char) :
    stripWs (collapseWs (stripWs (collapseWs cs))) = stripWs (collapseWs cs) := by
  have hadj_u : NoAdjWs (collapseWs cs) := collapseWsAux_noAdj cs false
  have hws_u : WsOnlySpace (collapseWs cs) := collapseWsAux_wsOnlySpace cs false
  have hadj_v : NoAdjWs (stripWs (collapseWs cs)) := stripWs_noAdj hadj_u
  have hws_v : WsOnlySpace (stripWs (collapseWs cs)) :=
    fun c hc hw => hws_u c (mem_stripWs hc) hw
  have hhead : HeadNotWs (stripWs (collapseWs cs)) := stripWs_headNotWs _
  have hlast : LastNotWs (stripWs (collapseWs cs)) := stripWs_lastNotWs _
  have hcv : collapseWs (stripWs (collapseWs cs)) = stripWs (collapseWs cs) :=
    collapseWsAux_id _ hadj_v hws_v false (fun h => absurd h (by decide))
  rw [hcv, stripWs_id hhead hlast]

/-! ### Claim C1 -/

/-- C1 counterexample: a stream holding a well-formed done event whose
text field is the empty string (preceded by a delta).  The done
handler sets the accumulated text to the empty string, which is falsy,
so the consumer takes the fallback branch instead of returning the
done text. -/
theorem c1_counterexample :
    transcribeStreamingResult [mkDelta "Hello", mkDone ""] = StreamOutcome.fallback ∧
      transcribeStreamingResult [mkDelta "Hello", mkDone ""] ≠ StreamOutcome.text "" := by
  decide

/-- C1 (amended): for every stream that ends with a well-formed done
event carrying a nonempty text field, the final returned text equals
that text exactly, regardless of the events (in particular the delta
fragments) accumulated before it.  The original claim fails when the
done text is empty, because the empty accumulated text then triggers
the non-streaming fallback. -/
theorem c1_done_text_authoritative (pre : List StreamEvent) (t : String)
    (h : t ≠ "") :
    transcribeStreamingResult (pre ++ [mkDone t]) = StreamOutcome.text t := by
  have hc : consumeStream (pre ++ [mkDone t]) = t := by
    unfold consumeStream
    rw [List.foldl_append]
    rfl
  unfold transcribeStreamingResult
  rw [hc, if_neg h]

/-- Witness for C1 at a concrete stream. -/
theorem c1_witness :
    transcribeStreamingResult [mkDelta "He", mkDone "Hi"] = StreamOutcome.text "Hi" :=
  c1_done_text_authoritative [mkDelta "He"] "Hi" (by decide)

/-! ### Claim C2 -/

/-- C2 counterexample: the loop never stops at a done event, so a
delta event arriving after the done event appends to the final text
and the result is no longer the done text. -/
theorem c2_counterexample :
    transcribeStreamingResult [mkDone "A", mkDelta "B"] = StreamOutcome.text "AB" ∧
      StreamOutcome.text "AB" ≠ StreamOutcome.text "A" := by
  decide

/-- C2 (amended): the consumer runs until the stream is exhausted and
does not stop at a done event: the accumulated text after the whole
stream equals the fold of the remaining events started from the done
text, so events after a done event keep transforming the state.  Only
when no text-affecting event follows the done event is the final text
the done text. -/
theorem c2_no_stop_at_done (pre : List StreamEvent) (t : String)
    (post : List StreamEvent) :
    consumeStream (pre ++ mkDone t :: post) = List.foldl processEvent t post := by
  unfold consumeStream
  rw [show pre ++ mkDone t :: post = (pre ++ [mkDone t]) ++ post from by simp,
    List.foldl_append, List.foldl_append]
  rfl

/-! ### Claim C3 -/

/-- C3 counterexample: two removal passes do not reach a marker
exposed twice, so the cleaned output of the input below still contains
the bracketed marker pattern. -/
theorem c3_counterexample :
    clean_whisperkit_text "<<<|x|>|a|>|b|>" = "<|b|>" ∧
      containsMarkerB (clean_whisperkit_text "<<<|x|>|a|>|b|>").data = true := by
  decide

/-- C3 (amended): for every input interleaving plain characters (never
a lt character) with complete bracketed markers, the cleaned output
contains zero occurrences of the bracketed marker pattern.  The
original claim fails for nested markers whose removal exposes further
markers twice, as the counterexample shows. -/
theorem c3_clean_removes_markers (s : List Char) (h : PlainMarkers s) :
    containsMarkerB (cleanList s) = false := by
  have hno : ∀ c ∈ cleanList s, c ≠ '<' := by
    intro c hc
    unfold cleanList at hc
    have h1 := mem_stripWs hc
    rcases mem_collapseWsAux _ false c h1 with h2 | h2
    · subst h2; decide
    · have h3 : subMarkers (subMarkers s) = subMarkers s :=
        subMarkers_id_of_no_lt (subMarkers_no_lt_of_plainMarkers h)
      rw [h3] at h2
      exact subMarkers_no_lt_of_plainMarkers h c h2
  rcases Bool.eq_false_or_eq_true (containsMarkerB (cleanList s)) with h' | h'
  · exact absurd rfl (hno '<' (mem_lt_of_containsMarkerB h'))
  · exact h'

/-- Witness for C3 at a concrete marker-bearing input. -/
theorem c3_witness :
    containsMarkerB
      (cleanList ('<' :: '|' :: ("0.00".data ++ '|' :: '>' :: " Hello".data))) = false :=
  c3_clean_removes_markers _
    (PlainMarkers.marker (by decide) (by decide) (plainMarkers_of_no_lt (by decide)))

/-! ### Claim C4 -/

/-- C4 counterexample: cleaning is not idempotent, because a cleaned
output can still contain a marker that a further cleaning removes. -/
theorem c4_counterexample :
    clean_whisperkit_text (clean_whisperkit_text "<<<|x|>|a|>|b|>") ≠
      clean_whisperkit_text "<<<|x|>|a|>|b|>" := by
  decide

/-- C4 (amended): cleaning an already-cleaned string yields the same
string whenever marker removal leaves the cleaned string unchanged (in
particular whenever the cleaned output carries no leftover marker),
and the whitespace collapsing and stripping stage is unconditionally
idempotent.  Full idempotence fails exactly when a marker survives
cleaning, as the counterexample shows. -/
theorem c4_clean_idempotent :
    (∀ s : String,
        subMarkers (clean_whisperkit_text s).data = (clean_whisperkit_text s).data →
          clean_whisperkit_text (clean_whisperkit_text s) = clean_whisperkit_text s) ∧
      (∀ cs : List Char,
        stripWs (collapseWs (stripWs (collapseWs cs))) = stripWs (collapseWs cs)) := by
  constructor
  · intro s h
    have key : cleanList (cleanList s.data) = cleanList s.data := by
      show stripWs (collapseWs (subMarkers (subMarkers (cleanList s.data)))) =
        cleanList s.data
      rw [show subMarkers (cleanList s.data) = cleanList s.data from h,
        show subMarkers (cleanList s.data) = cleanList s.data from h]
      exact stripCollapse_idem (subMarkers (subMarkers s.data))
    exact congrArg String.mk key
  · exact stripCollapse_idem

/-- Witness for C4 at a concrete input with collapsible whitespace. -/
theorem c4_witness :
    clean_whisperkit_text (clean_whisperkit_text "a  b") = clean_whisperkit_text "a  b" :=
  c4_clean_idempotent.1 "a  b" (by decide)

/-! ### Claim C5 -/

/-- C5 counterexample: a stream with zero delta and zero done events
can still leave a nonempty accumulated text, through a payload that
fails to parse as JSON; the consumer then does not signal the
fallback condition. -/
theorem c5_counterexample :
    ([StreamEvent.raw "hello"].all fun e => !(isDeltaOrDone e)) = true ∧
      transcribeStreamingResult [StreamEvent.raw "hello"] ≠ StreamOutcome.fallback := by
  decide

/-- C5 (amended): whenever the stream closes with an empty accumulated
text (in particular with zero events of any kind), the consumer
signals the fallback condition and issues exactly one non-streaming
request for the same audio.  The original claim, keyed on zero delta
or done events, fails because a raw non-JSON payload can populate the
text. -/
theorem c5_empty_stream_fallback (events : List StreamEvent)
    (h : consumeStream events = "") :
    transcribeStreamingResult events = StreamOutcome.fallback ∧
      fallbackRequestCount events = 1 := by
  constructor
  · unfold transcribeStreamingResult
    rw [if_pos h]
  · unfold fallbackRequestCount
    rw [if_pos h]

/-- Witness for C5 at the empty stream. -/
theorem c5_witness :
    transcribeStreamingResult ([] : List StreamEvent) = StreamOutcome.fallback ∧
      fallbackRequestCount ([] : List StreamEvent) = 1 :=
  c5_empty_stream_fallback [] rfl

/-! ### Claim C6 -/

/-- C6 counterexample: a payload that fails to parse as JSON is used
after stripping, not verbatim: leading whitespace of the payload does
not reach the accumulated text. -/
theorem c6_counterexample :
    consumeStream [StreamEvent.raw " hi"] = "hi" ∧ ("hi" : String) ≠ " hi" := by
  decide

/-- C6 (amended): a payload that fails to parse as JSON replaces the
accumulated text with its whitespace-stripped form when that form is
nonempty and leaves the text unchanged otherwise; the parse failure
never aborts the fold; and a JSON payload with an unrecognised type
tag leaves the accumulated text unchanged.  The original claim said
the raw payload was used verbatim, which the stripping refutes. -/
theorem c6_raw_and_unknown_events (acc s : String) :
    processEvent acc (StreamEvent.raw s) = (if pyStrip s = "" then acc else pyStrip s) ∧
      (∀ (t d x : Option String),
        t ≠ some "transcript.text.delta" → t ≠ some "transcript.text.done" →
          processEvent acc (StreamEvent.json t d x) = acc) := by
  constructor
  · rfl
  · intro t d x h1 h2
    simp only [processEvent]
    rw [if_neg h1, if_neg h2]

/-- Witness for C6 at a concrete raw payload and a concrete
unclassified event. -/
theorem c6_witness :
    processEvent "A" (StreamEvent.raw " hi") = "hi" ∧
      processEvent "A" (StreamEvent.json (some "other") none none) = "A" := by
  constructor
  · rw [(c6_raw_and_unknown_events "A" " hi").1]
    decide
  · exact (c6_raw_and_unknown_events "A" " hi").2 (some "other") none none
      (by decide) (by decide)

/-! ### Claim C7 -/

/-- C7: every transcription or translation request that receives a
status other than 200 surfaces a recoverable error carrying the status
code and the response body, raises no exception (all embedded
functions are total), and returns the empty result: the non-streaming
transcription path, the streaming transcription path and the
translation path all behave this way. -/
theorem c7_non_success_status (resp : HttpResponse) (events : List StreamEvent)
    (fallbackResult : Option String) (h : resp.status ≠ 200) :
    transcribeNonStreaming resp = none ∧
      translateCall resp = none ∧
      transcribeStreamingTop resp.status events fallbackResult = none ∧
      transcriptionFailureMsg resp =
        some ("Transcription failed: " ++ toString resp.status ++ " " ++ resp.body) ∧
      translationFailureMsg resp =
        some ("Translation failed: " ++ toString resp.status ++ " " ++ resp.body) ∧
      streamingFailureMsg resp =
        some ("Streaming failed: " ++ toString resp.status ++ " " ++ resp.body) := by
  refine ⟨?_, ?_, ?_, ?_, ?_, ?_⟩
  · unfold transcribeNonStreaming
    rw [if_pos h]
  · unfold translateCall
    rw [if_pos h]
  · unfold transcribeStreamingTop
    rw [if_pos h]
  · unfold transcriptionFailureMsg
    rw [if_pos h]
  · unfold translationFailureMsg
    rw [if_pos h]
  · unfold streamingFailureMsg
    rw [if_pos h]

/-- Witness for C7 at a concrete 404 response. -/
theorem c7_witness :
    transcribeNonStreaming ⟨404, "nf", "x"⟩ = none ∧
      translateCall ⟨404, "nf", "x"⟩ = none ∧
      transcribeStreamingTop 404 [] none = none ∧
      transcriptionFailureMsg ⟨404, "nf", "x"⟩ = some "Transcription failed: 404 nf" ∧
      translationFailureMsg ⟨404, "nf", "x"⟩ = some "Translation failed: 404 nf" ∧
      streamingFailureMsg ⟨404, "nf", "x"⟩ = some "Streaming failed: 404 nf" := by
  obtain ⟨h1, h2, h3, h4, h5, h6⟩ :=
    c7_non_success_status ⟨404, "nf", "x"⟩ [] none (by decide)
  refine ⟨h1, h2, h3, ?_, ?_, ?_⟩
  · rw [h4]; decide
  · rw [h5]; decide
  · rw [h6]; decide

/-! ### Claim C8 -/

/-- C8: the translation request is built without a
timestamp_granularities field in the outgoing multipart form even when
granularities are supplied by the caller: the translation path never
sends this field. -/
theorem c8_translation_omits_granularities (model response_format : String)
    (timestamp_granularities : List String) :
    (((translationFormData model response_format timestamp_granularities).map
      Prod.fst).contains "timestamp_granularities[]") = false := by
  rfl

/-! ### Claim C9 -/

/-- C9: the inclusion-flag loop assigns every flag to the same
dictionary key, so only the last flag of the list survives in the
outgoing form data; with the flag list [logprobs, word_timestamps] the
form carries a single include entry holding word_timestamps and the
logprobs flag is absent, contradicting the claim that every flag
appears as a repeated field. -/
theorem c9_include_flags_overwritten :
    transcriptionFormData "tiny" "" "json" [] ["logprobs", "word_timestamps"] =
      [("model", "tiny"), ("response_format", "json"),
        ("include[]", "word_timestamps")] ∧
      ((transcriptionFormData "tiny" "" "json" [] ["logprobs", "word_timestamps"]).contains
        ("include[]", "logprobs")) = false := by
  decide

/-! ### Claim C10 -/

/-- C10: the fragment appended for a delta event is the cleaned delta;
a cleaned string never has leading or trailing whitespace; hence two
consecutive delta fragments are concatenated with no separator even
when the original fragments carried boundary whitespace, as in the
concrete scenario where the fragments with boundary whitespace
accumulate to the string Helloworld. -/
theorem c10_delta_concatenation :
    (∀ d : String,
        ((clean_whisperkit_text d).data.head?.all fun c => !(isWs c)) = true ∧
        ((clean_whisperkit_text d).data.getLast?.all fun c => !(isWs c)) = true) ∧
      (∀ acc d : String,
        processEvent acc (mkDelta d) =
          if d = "" then acc else acc ++ clean_whisperkit_text d) ∧
      consumeStream [mkDelta "<|0.00|> Hello", mkDelta " world"] = "Helloworld" := by
  refine ⟨?_, ?_, by decide⟩
  · intro d
    constructor
    · cases hh : (clean_whisperkit_text d).data.head? with
      | none => rfl
      | some c =>
        have h2 : isWs c = false :=
          stripWs_headNotWs (collapseWs (subMarkers (subMarkers d.data))) c hh
        show (!(isWs c)) = true
        rw [h2]
        rfl
    · cases hh : (clean_whisperkit_text d).data.getLast? with
      | none => rfl
      | some c =>
        have h2 : isWs c = false :=
          stripWs_lastNotWs (collapseWs (subMarkers (subMarkers d.data))) c hh
        show (!(isWs c)) = true
        rw [h2]
        rfl
  · intro acc d
    rfl

end WhisperKit
